import Mathlib

/-!
Verification of the iteration-control loop and dependency-resolving executor of the
Deep-Reasoning orchestrator (`app/main.py`, `app/schemas.py`).

The Python data model (pydantic models in `app/schemas.py`) is embedded as Lean
structures.  `Orchestrator._execute_exploration_steps` (main.py lines 572-666) is
embedded as a pure state-passing function: the Python code mutates `step_obj.response`
in place while iterating over a flattened snapshot `all_steps_to_process` of
`(plan, step)` pairs; since the loop never reads `response` of any step other than the
one it just assigned, this is rendered here by recording each execution in a trace and
rebuilding the plan list from the trace at the end (`applyResponses`), which yields the
same final object state.  Fallible Python operations (`str.split` unpacking, pydantic
validation, attribute access) are rendered with `Except`.
-/

set_option maxHeartbeats 1000000

namespace DeepReasoning

/-- Model of `app/schemas.py` `PlanStep`: `step_id`, `instructions`, optional
`dependencies` (qualified `"plan_id.step_id"` references) and optional `response`. -/
structure PlanStep where
  step_id : String
  instructions : String
  dependencies : Option (List String) := none
  response : Option String := none
deriving Repr, DecidableEq

/-- Model of `app/schemas.py` `ExplorationPlan`: `plan_id`, non-empty `strategy`
(enforced by a pydantic validator, not needed by the executor), optional `overview`,
ordered `steps`. -/
structure ExplorationPlan where
  plan_id : String
  strategy : String
  overview : Option String := none
  steps : List PlanStep
deriving Repr, DecidableEq

/-- Model of `app/schemas.py` `ContextSelection`. -/
structure ContextSelection where
  plan_id : String
  step_ids : List String
deriving Repr, DecidableEq

/-- Model of `app/schemas.py` `NextIterationGuidance`.  The field names are exactly
the ones declared in `schemas.py` (lines 43-59); note that `app/main.py` and the
reviewer prompt in `app/instructions.py` refer to different names
(`refinement_details`, `suggested_strategy`, `dfs_path_summary`) that do NOT exist on
this class.  `action` is a `Literal[...]` in Python; here it is a `String`, with the
literal check modelled in the pydantic-construction function below. -/
structure NextIterationGuidance where
  action : String
  reasoning : String
  target_plan_id : Option String := none
  target_step_id : Option String := none
  suggested_modifications_or_focus : Option String := none
  excluded_strategies : Option (List String) := none
  new_strategy_suggestion : Option String := none
  current_dfs_path_summary : Option String := none
deriving Repr, DecidableEq

/-- Model of `app/schemas.py` `ReviewerOut` (lines 61-65).  The declared field names
are `assessment_of_current_iteration`, `is_sufficient_for_synthesis`, `context_to_use`
and `next_iteration_guidance`; `app/main.py` instead reads and constructs the names
`iteration_assessment`, `synthesis_ready`, `selected_context`, which do not exist on
this class. -/
structure ReviewerOut where
  assessment_of_current_iteration : String
  is_sufficient_for_synthesis : Bool
  context_to_use : Option (List ContextSelection) := none
  next_iteration_guidance : NextIterationGuidance
deriving Repr, DecidableEq

/-- The `Literal` value set of `NextIterationGuidance.action` in `app/schemas.py`. -/
def actionLiterals : List String :=
  ["DEEPEN", "BROADEN", "CONTINUE_DFS_PATH", "RETRY_STEP_WITH_MODIFICATION",
   "HALT_SUFFICIENT", "HALT_STAGNATION", "HALT_NO_FEASIBLE_PATH"]

/-! ## Dependency-resolving executor (`Orchestrator._execute_exploration_steps`) -/

/-- One element of the flattened work list `all_steps_to_process` (main.py line 580):
the position of the step inside the input plan list plus the data the execution loop
reads from it.  `qname` is the qualified id `f"{plan_obj.plan_id}.{step_obj.step_id}"`
(line 596); `deps` is `step_obj.dependencies or []` (line 602). -/
structure WorkItem where
  pidx : Nat
  sidx : Nat
  qname : String
  deps : List String
  instructions : String
deriving Repr, DecidableEq

/-- Work items of one plan, starting at step index `j`. -/
def stepsWork (pid : String) (i : Nat) : Nat → List PlanStep → List WorkItem
  | _, [] => []
  | j, s :: rest =>
    ⟨i, j, pid ++ "." ++ s.step_id, s.dependencies.getD [], s.instructions⟩ ::
      stepsWork pid i (j + 1) rest

/-- Work items of a plan list, starting at plan index `i`. -/
def plansWork : Nat → List ExplorationPlan → List WorkItem
  | _, [] => []
  | i, p :: rest => stepsWork p.plan_id i 0 p.steps ++ plansWork (i + 1) rest

/-- The flattened work list (main.py lines 580-584), in declared plan/step order. -/
def mkWorkList (plans : List ExplorationPlan) : List WorkItem := plansWork 0 plans

/-- One recorded invocation of `self.thinker.think` (main.py line 627):
the step position and qualified name, its declared dependencies, the keys of
`completed_step_outputs` at the moment of the invocation, and the output. -/
structure ThinkEvent where
  pidx : Nat
  sidx : Nat
  qname : String
  deps : List String
  completedBefore : List String
  output : String
deriving Repr, DecidableEq

/-- The executor state: `completed_step_outputs` (insertion-ordered dict),
`executed_step_qnames` (set, kept in insertion order), the trace of think
invocations, `executed_in_this_pass`, and the number of passes that have swept the
work list. -/
structure ExecSt where
  completed : List (String × String)
  executed : List String
  trace : List ThinkEvent
  execInPass : Nat
  passesRun : Nat
deriving Repr, DecidableEq

/-- Split a character list at the first `'.'`. -/
def splitDotAux : List Char → Option (List Char × List Char)
  | [] => none
  | c :: cs =>
    if c = '.' then some ([], cs)
    else
      match splitDotAux cs with
      | none => none
      | some (a, b) => some (c :: a, b)

/-- Python `dep_qname.split('.', 1)` unpacked into two variables (main.py line 618):
the string is split at its first `"."`; `none` models the `ValueError` raised when
the string has no `"."`. -/
def splitQname (s : String) : Option (String × String) :=
  match splitDotAux s.data with
  | none => none
  | some (a, b) => some (⟨a⟩, ⟨b⟩)

/-- The per-dependency `<output .../>` parts (main.py lines 616-623).  A malformed
qualified id (no dot) raises `ValueError` at the unpacking, modelled as `.error`. -/
def depOutputsXml (completed : List (String × String)) : List String → Except String (List String)
  | [] => .ok []
  | d :: ds =>
    match splitQname d with
    | none => .error "ValueError: not enough values to unpack (expected 2, got 1)"
    | some (pid, sid) =>
      let content := (List.lookup d completed).getD "Error: Dependency output not found!"
      let part := s!"  <output plan_id=\"{pid}\" step_id=\"{sid}\">\n    {content}\n  </output>"
      match depOutputsXml completed ds with
      | .error e => .error e
      | .ok rest => .ok (part :: rest)

/-- `dependency_outputs_context_str` passed to the thinker: `none` when
`step_obj.dependencies` is falsy (absent or the empty list), else the joined XML
block (main.py lines 614-629). -/
def buildDepContext (completed : List (String × String)) (deps : List String) :
    Except String (Option String) :=
  if deps.isEmpty then .ok none
  else
    match depOutputsXml completed deps with
    | .error e => .error e
    | .ok parts =>
      .ok (some (String.intercalate "\n"
        ("<dependency_outputs>" :: parts ++ ["</dependency_outputs>"])))

/-- The body of the inner `for plan_obj, step_obj in all_steps_to_process` loop
(main.py lines 595-634) for a single work item: skip if the qualified name was
executed; if all dependencies are keys of `completed_step_outputs`, invoke the
thinker, record the response (the dict stores `step_obj.response or
"No response recorded."`, so an empty output is replaced by the placeholder), and
update the bookkeeping. -/
def processItem (think : String → Option String → String → String) (parentTask : String)
    (w : WorkItem) (st : ExecSt) : Except String ExecSt :=
  if st.executed.contains w.qname then .ok st
  else if w.deps.all (fun d => (List.lookup d st.completed).isSome) then
    match buildDepContext st.completed w.deps with
    | .error e => .error e
    | .ok ctx =>
      let out := think w.instructions ctx parentTask
      let stored := if out == "" then "No response recorded." else out
      .ok { completed := st.completed ++ [(w.qname, stored)]
            executed := st.executed ++ [w.qname]
            trace := st.trace ++ [⟨w.pidx, w.sidx, w.qname, w.deps, st.completed.map Prod.fst, out⟩]
            execInPass := st.execInPass + 1
            passesRun := st.passesRun }
  else .ok st

/-- One full sweep of the work list (one pass). -/
def runPass (think : String → Option String → String → String) (parentTask : String) :
    List WorkItem → ExecSt → Except String ExecSt
  | [], st => .ok st
  | w :: ws, st =>
    match processItem think parentTask w st with
    | .error e => .error e
    | .ok st1 => runPass think parentTask ws st1

/-- The pass loop `for pass_num in range(max_passes + 1)` (main.py lines 590-648):
`fuel` is the number of remaining pass-loop iterations (initially `max_passes + 1`),
`passNum` the current `pass_num`.  The loop breaks early when all steps are executed,
or when a pass with `pass_num > 0` executes nothing while steps remain pending
(the defensive circular-dependency break, lines 636-648). -/
def execLoop (think : String → Option String → String → String) (parentTask : String)
    (work : List WorkItem) (n : Nat) : Nat → Nat → ExecSt → Except String ExecSt
  | 0, _, st => .ok st
  | fuel + 1, passNum, st =>
    if st.executed.length == n then .ok st
    else
      match runPass think parentTask work
          { st with execInPass := 0, passesRun := st.passesRun + 1 } with
      | .error e => .error e
      | .ok st1 =>
        if decide (0 < passNum) && st1.execInPass == 0 && decide (st1.executed.length < n) then
          .ok st1
        else
          execLoop think parentTask work n fuel (passNum + 1) st1

/-- Rebuild the steps of the plan at index `i` from the trace: the step at position
`(i, j)` executed at most once; if it executed, its `response` was assigned the
thinker output (main.py line 627), otherwise it is untouched. -/
def applyStepResponses (trace : List ThinkEvent) (i : Nat) : Nat → List PlanStep → List PlanStep
  | _, [] => []
  | j, s :: rest =>
    (match trace.find? (fun e => e.pidx == i && e.sidx == j) with
     | some e => { s with response := some e.output }
     | none => s) :: applyStepResponses trace i (j + 1) rest

/-- Rebuild the plan list from the trace (the in-place `step_obj.response` mutations
of `_execute_exploration_steps` applied to the input plans). -/
def applyResponses (trace : List ThinkEvent) : Nat → List ExplorationPlan → List ExplorationPlan
  | _, [] => []
  | i, p :: rest =>
    { p with steps := applyStepResponses trace i 0 p.steps } :: applyResponses trace (i + 1) rest

/-- Model of `Orchestrator._execute_exploration_steps` (main.py lines 572-666).
Returns the plan list with responses filled in, together with the trace of thinker
invocations and the number of passes that swept the work list.  `.error` models an
uncaught Python exception (only possible at the `dep_qname.split` unpacking). -/
def executeExplorationSteps (think : String → Option String → String → String)
    (exploration_plans : List ExplorationPlan) (parentTask : String) :
    Except String (List ExplorationPlan × List ThinkEvent × Nat) :=
  if exploration_plans.isEmpty then .ok ([], [], 0)
  else
    let work := mkWorkList exploration_plans
    let n := work.length
    match execLoop think parentTask work n (n + 1) 0 ⟨[], [], [], 0, 0⟩ with
    | .error e => .error e
    | .ok st => .ok (applyResponses st.trace 0 exploration_plans, st.trace, st.passesRun)

/-! ### Satisfiability of dependencies

The iterated one-step closure of the executable-qnames set: `satIter work k` is the
set (as a list) of qualified names of work items whose dependencies are all
satisfiable within `k` rounds.  A step "can be satisfied" when some round covers all
its dependencies. -/

/-- Qualified names occurring in a work list. -/
def workQnames (work : List WorkItem) : List String := work.map WorkItem.qname

/-- `satIter work k`: qualified names executable within `k` rounds of the one-step
closure operator. -/
def satIter (work : List WorkItem) : Nat → List String
  | 0 => []
  | k + 1 =>
    (work.filter (fun w => w.deps.all (fun d => (satIter work k).contains d))).map WorkItem.qname

/-- A dependency list all of whose entries are eventually satisfiable. -/
def DepsSatisfiable (work : List WorkItem) (deps : List String) : Prop :=
  ∃ k, ∀ d ∈ deps, d ∈ satIter work k

/-- A dependency list that can never be fully satisfied (a nonexistent or malformed
qualified reference, or a dependency cycle). -/
def DepsNeverSatisfiable (work : List WorkItem) (deps : List String) : Prop :=
  ∀ k, ¬ ∀ d ∈ deps, d ∈ satIter work k

/-- The qualified id `f"{plan_obj.plan_id}.{step_obj.step_id}"` of a step of a plan. -/
def planStepQname (p : ExplorationPlan) (s : PlanStep) : String :=
  p.plan_id ++ "." ++ s.step_id

/-- A step stripped of its `response` (for the frame property: everything except
`response` is preserved by the executor). -/
def stripStep (s : PlanStep) : PlanStep := { s with response := none }

/-- A plan with all step responses stripped. -/
def stripPlan (p : ExplorationPlan) : ExplorationPlan := { p with steps := p.steps.map stripStep }

/-! ## Python runtime layer: exceptions, attribute access, pydantic construction

`app/main.py` reads attributes (`iteration_assessment`, `synthesis_ready`,
`selected_context`, `refinement_details`, `suggested_strategy`, `dfs_path_summary`)
that are not declared on the pydantic classes in `app/schemas.py`; at runtime these
raise `AttributeError`, and constructing `ReviewerOut` with the undeclared keyword
names raises a pydantic `ValidationError` (required fields missing; unknown keyword
names are ignored under pydantic default config).  These dynamic semantics are
modelled explicitly. -/

/-- An uncaught Python exception. -/
inductive PyErr where
  | attributeError (cls attr : String)
  | validationError (cls : String) (badFields : List String)
  | stageError (msg : String)
  | valueError (msg : String)
deriving Repr, DecidableEq

/-- A dynamically-typed attribute / keyword-argument value. -/
inductive AttrVal where
  | vstr : String → AttrVal
  | vbool : Bool → AttrVal
  | vnone : AttrVal
  | vctx : List ContextSelection → AttrVal
  | vguid : NextIterationGuidance → AttrVal
  | vstrList : List String → AttrVal
deriving Repr, DecidableEq

/-- Python truthiness of an attribute value (`None`, `""`, `[]`, `False` are falsy). -/
def AttrVal.truthy : AttrVal → Bool
  | .vstr s => !(s == "")
  | .vbool b => b
  | .vnone => false
  | .vctx l => !l.isEmpty
  | .vguid _ => true
  | .vstrList l => !l.isEmpty

/-- An `Optional[str]` value as a dynamic attribute value. -/
def optStrVal : Option String → AttrVal
  | none => .vnone
  | some s => .vstr s

/-- An `Optional[List[str]]` value as a dynamic attribute value. -/
def optStrListVal : Option (List String) → AttrVal
  | none => .vnone
  | some l => .vstrList l

/-- Attribute lookup on a `NextIterationGuidance` instance, resolving exactly the
field names declared in `app/schemas.py` (lines 43-59); any other name raises
`AttributeError`. -/
def NextIterationGuidance.getattr (g : NextIterationGuidance) : String → Except PyErr AttrVal
  | "action" => .ok (.vstr g.action)
  | "reasoning" => .ok (.vstr g.reasoning)
  | "target_plan_id" => .ok (optStrVal g.target_plan_id)
  | "target_step_id" => .ok (optStrVal g.target_step_id)
  | "suggested_modifications_or_focus" => .ok (optStrVal g.suggested_modifications_or_focus)
  | "excluded_strategies" => .ok (optStrListVal g.excluded_strategies)
  | "new_strategy_suggestion" => .ok (optStrVal g.new_strategy_suggestion)
  | "current_dfs_path_summary" => .ok (optStrVal g.current_dfs_path_summary)
  | a => .error (.attributeError "NextIterationGuidance" a)

/-- Attribute lookup on a `ReviewerOut` instance, resolving exactly the field names
declared in `app/schemas.py` (lines 61-65); any other name raises `AttributeError`. -/
def ReviewerOut.getattr (r : ReviewerOut) : String → Except PyErr AttrVal
  | "assessment_of_current_iteration" => .ok (.vstr r.assessment_of_current_iteration)
  | "is_sufficient_for_synthesis" => .ok (.vbool r.is_sufficient_for_synthesis)
  | "context_to_use" =>
    .ok (match r.context_to_use with
         | some l => .vctx l
         | none => .vnone)
  | "next_iteration_guidance" => .ok (.vguid r.next_iteration_guidance)
  | a => .error (.attributeError "ReviewerOut" a)

/-- Pydantic construction of `ReviewerOut` from keyword arguments.  Under pydantic
default config unknown keyword names are ignored; each declared field without a
default (`assessment_of_current_iteration`, `is_sufficient_for_synthesis`,
`next_iteration_guidance`) must be supplied with a value of the declared type,
otherwise validation fails; `context_to_use` defaults to `None`. -/
def ReviewerOut.pydanticNew (kwargs : List (String × AttrVal)) : Except PyErr ReviewerOut :=
  let find := fun (n : String) => (kwargs.find? (fun kv => kv.1 == n)).map Prod.snd
  match find "assessment_of_current_iteration", find "is_sufficient_for_synthesis",
        find "next_iteration_guidance" with
  | some (.vstr a), some (.vbool b), some (.vguid g) =>
    let ctx := match find "context_to_use" with
      | some (.vctx l) => some l
      | _ => none
    .ok { assessment_of_current_iteration := a, is_sufficient_for_synthesis := b,
          context_to_use := ctx, next_iteration_guidance := g }
  | a?, b?, g? =>
    .error (.validationError "ReviewerOut"
      ((if (a?.map AttrVal.truthy).isNone then ["assessment_of_current_iteration"] else []) ++
       (if (b?.map AttrVal.truthy).isNone then ["is_sufficient_for_synthesis"] else []) ++
       (if (g?.map AttrVal.truthy).isNone then ["next_iteration_guidance"] else [])))

/-- Pydantic construction of `NextIterationGuidance` from the two keyword arguments
used by the reviewer fallback (`action=`, `reasoning=`, main.py lines 311-314); both
names are declared fields, and `action` must be one of the `Literal` values. -/
def NextIterationGuidance.new (action reasoning : String) : Except PyErr NextIterationGuidance :=
  if actionLiterals.contains action then
    .ok { action := action, reasoning := reasoning }
  else .error (.validationError "NextIterationGuidance" ["action"])

/-- Python exception class name, for the fallback reasoning f-string. -/
def PyErr.typeName : PyErr → String
  | .attributeError .. => "AttributeError"
  | .validationError .. => "ValidationError"
  | .stageError _ => "Exception"
  | .valueError _ => "ValueError"

/-- Python `str(e)` rendering, for the fallback reasoning f-string. -/
def PyErr.msg : PyErr → String
  | .attributeError cls a => s!"{cls} object has no attribute {a}"
  | .validationError cls bad => s!"validation error for {cls}: {bad} field required"
  | .stageError m => m
  | .valueError m => m

/-! ## ReviewerAgent.review and its failure fallback (main.py lines 226-320) -/

/-- Model of `ReviewerAgent.review`: on a successful structured reviewer call the
response is returned; on any exception the `except` branch (main.py lines 309-320)
builds `NextIterationGuidance(action="HALT_NO_FEASIBLE_PATH", ...)` and then
`ReviewerOut(iteration_assessment=..., synthesis_ready=..., selected_context=...,
next_iteration_guidance=...)`; an exception raised by these constructors inside the
`except` block propagates out of `review`. -/
def reviewerReview (reviewerCall : Except PyErr ReviewerOut) : Except PyErr ReviewerOut :=
  match reviewerCall with
  | .ok response => .ok response
  | .error e =>
    let tn := e.typeName
    let em := e.msg
    match NextIterationGuidance.new "HALT_NO_FEASIBLE_PATH"
        s!"Error during review processing: {tn} - {em}" with
    | .error e2 => .error e2
    | .ok default_guidance =>
      ReviewerOut.pydanticNew
        [("iteration_assessment", .vstr "ERROR_IN_REVIEW_PROCESSING"),
         ("synthesis_ready", .vbool false),
         ("selected_context", .vnone),
         ("next_iteration_guidance", .vguid default_guidance)]

/-! ## Guidance translator (main.py lines 508-570) -/

/-- One history entry `{"plans_with_responses": ..., "review": ...}` appended per
iteration (main.py lines 695-698). -/
structure IterationRecord where
  plans_with_responses : List ExplorationPlan
  review : ReviewerOut
deriving Repr, DecidableEq

/-- The dict returned by `Orchestrator._get_step_details_from_history`. -/
structure StepDetails where
  original_instruction : Option String
  previous_output : Option String
deriving Repr, DecidableEq

/-- Python `x or default` on an `Optional[str]` (`None` and `""` are falsy). -/
def pyOrStr (o : Option String) (d : String) : String :=
  match o with
  | none => d
  | some s => if s == "" then d else s

/-- Scan the plans of one history entry in order; on the first plan whose `plan_id`
matches, scan its steps for `step_id`; a match returns immediately, otherwise the
scan continues with the remaining plans (main.py lines 516-522). -/
def findStepInPlans (plan_id step_id : String) : List ExplorationPlan → Option StepDetails
  | [] => none
  | p :: rest =>
    if p.plan_id == plan_id then
      match p.steps.find? (fun s => s.step_id == step_id) with
      | some s => some ⟨some s.instructions, some (pyOrStr s.response "No response recorded.")⟩
      | none => findStepInPlans plan_id step_id rest
    else findStepInPlans plan_id step_id rest

/-- Model of `Orchestrator._get_step_details_from_history`: search the history
newest-first (`reversed(full_history)`), first match wins. -/
def getStepDetailsFromHistory (plan_id step_id : String)
    (full_history : List IterationRecord) : StepDetails :=
  match full_history.reverse.findSome?
      (fun h => findStepInPlans plan_id step_id h.plans_with_responses) with
  | some d => d
  | none => ⟨none, none⟩

/-- Actions that reference a target step (main.py line 539). -/
def targetActions : List String := ["DEEPEN", "CONTINUE_DFS_PATH", "RETRY_STEP_WITH_MODIFICATION"]

/-- Python truthiness of an `Optional[str]`. -/
def optStrTruthy : Option String → Bool
  | none => false
  | some s => !(s == "")

/-- Rendering of a dynamic value inside an f-string. -/
def AttrVal.fstr : AttrVal → String
  | .vstr s => s
  | .vbool b => if b then "True" else "False"
  | .vnone => "None"
  | .vctx _ => "[...]"
  | .vguid _ => "NextIterationGuidance(...)"
  | .vstrList l => String.intercalate ", " l

/-- Model of `Orchestrator._prepare_planner_guidance_prompt` (main.py lines 525-570).
Returns `none` when there is no previous guidance.  Otherwise it assembles the
directive lines; note that line 560 unconditionally reads
`previous_review_guidance.refinement_details`, a name that `app/schemas.py` does not
declare (the declared name is `suggested_modifications_or_focus`), so on the schema
classes this access raises `AttributeError` before any directive can be returned.
The code after that access is translated faithfully nonetheless. -/
def preparePlannerGuidancePrompt (previous_review_guidance : Option NextIterationGuidance)
    (full_history : List IterationRecord) : Except PyErr (Option String) :=
  match previous_review_guidance with
  | none => .ok none
  | some g =>
    let action := g.action
    let reasoning := g.reasoning
    let parts := [s!"The Reviewer has provided guidance for this iteration (action: {action}).",
                  s!"Reviewer's reasoning: {reasoning}"]
    let parts :=
      if targetActions.contains action then
        if optStrTruthy g.target_plan_id && optStrTruthy g.target_step_id then
          let tp := g.target_plan_id.getD ""
          let ts := g.target_step_id.getD ""
          let parts := parts ++ [s!"Target Plan ID: {tp}", s!"Target Step ID: {ts}"]
          let det := getStepDetailsFromHistory tp ts full_history
          if action == "DEEPEN" || action == "CONTINUE_DFS_PATH" then
            let po := pyOrStr det.previous_output "Not available"
            parts ++ [s!"Previous output of target step: {po}"]
          else if action == "RETRY_STEP_WITH_MODIFICATION" then
            let oi := pyOrStr det.original_instruction "Not available"
            let po := pyOrStr det.previous_output "Not available"
            parts ++ [s!"Original instruction of target step: {oi}",
                      s!"Previous output of target step: {po}"]
          else parts
        else
          parts ++ ["Warning: Target plan/step ID missing for DEEPEN/CONTINUE_DFS_PATH/RETRY action."]
      else parts
    match g.getattr "refinement_details" with
    | .error e => .error e
    | .ok rd =>
      let parts :=
        if rd.truthy then
          let rds := rd.fstr
          parts ++ [s!"Suggested modifications or focus: {rds}"]
        else parts
      let broadenParts : Except PyErr (List String) :=
        if action == "BROADEN" then
          let parts :=
            match g.excluded_strategies with
            | some l =>
              if !l.isEmpty then
                let joined := String.intercalate ", " l
                parts ++ [s!"Excluded strategies: {joined}"]
              else parts
            | none => parts
          match g.getattr "suggested_strategy" with
          | .error e => .error e
          | .ok ss =>
            if ss.truthy then
              let sss := ss.fstr
              .ok (parts ++ [s!"New strategy suggestion: {sss}"])
            else .ok parts
        else .ok parts
      match broadenParts with
      | .error e => .error e
      | .ok parts =>
        if action == "CONTINUE_DFS_PATH" then
          match g.getattr "dfs_path_summary" with
          | .error e => .error e
          | .ok dps =>
            let parts :=
              if dps.truthy then
                let dpss := dps.fstr
                parts ++ [s!"Current DFS path summary: {dpss}"]
              else parts
            .ok (some (String.intercalate "\n" parts))
        else .ok (some (String.intercalate "\n" parts))

/-! ## Iteration controller (`Orchestrator.run`, main.py lines 668-726) -/

/-- The planner stage result (`app/schemas.py` `PlannerOut`). -/
structure PlannerOut where
  exploration_plans : List ExplorationPlan
deriving Repr, DecidableEq

/-- The external stage behaviours the orchestrator is run against: the raw
`planner_call` (task, guidance prompt), the thinker (instructions, dependency
context, parent task), the raw `reviewer_call` (task, plans, iteration,
iterations-no-progress, stagnation threshold), and the synthesizer result for a
task and history. -/
structure Stages where
  plannerCall : String → Option String → Except PyErr PlannerOut
  think : String → Option String → String → String
  reviewerCall : String → List ExplorationPlan → Nat → Nat → Nat → Except PyErr ReviewerOut
  synthesize : String → List IterationRecord → String

/-- Model of `PlannerAgent.generate_plan` (main.py lines 96-149): any exception is
caught and yields `[]`; an empty `exploration_plans` also yields `[]`. -/
def generatePlan (plannerCall : String → Option String → Except PyErr PlannerOut)
    (parent_task : String) (review_guidance_str : Option String) : List ExplorationPlan :=
  match plannerCall parent_task review_guidance_str with
  | .ok response =>
    if response.exploration_plans.isEmpty then [] else response.exploration_plans
  | .error _ => []

/-- ANSI color codes from `BColors` used in the returned error strings. -/
def bcolorsFAIL : String := "\x1B[91m"

/-- ANSI reset code from `BColors`. -/
def bcolorsENDC : String := "\x1B[0m"

/-- The error string returned when the planner produces no plans on iteration 1
(main.py line 682). -/
def errNoInitialPlan : String :=
  bcolorsFAIL ++ "Error: Planner failed to generate an initial plan and there's no history. Cannot proceed." ++ bcolorsENDC

/-- The error string returned when the loop ends with no history (main.py line 724). -/
def errNoHistory : String :=
  bcolorsFAIL ++ "Error: No history was generated. Cannot synthesize." ++ bcolorsENDC

/-- The halt actions checked by the controller (main.py line 713). -/
def haltActions : List String := ["HALT_SUFFICIENT", "HALT_STAGNATION", "HALT_NO_FEASIBLE_PATH"]

instance {ε α : Type} [DecidableEq ε] [DecidableEq α] : DecidableEq (Except ε α) := fun x y =>
  match x, y with
  | .ok a, .ok b => if h : a = b then isTrue (by rw [h]) else isFalse (by simp [h])
  | .error a, .error b => if h : a = b then isTrue (by rw [h]) else isFalse (by simp [h])
  | .ok _, .error _ => isFalse (by simp)
  | .error _, .ok _ => isFalse (by simp)

/-- The observable outcome of one `Orchestrator.run`: the returned string or the
escaped exception, the successive values of `iterations_no_progress` recorded right
after each update (main.py lines 706-711), and the final `current_iteration`. -/
structure RunOutcome where
  result : Except PyErr String
  counterTrace : List Nat
  iterationsStarted : Nat
deriving Repr, DecidableEq

/-- The post-loop tail of `run` (main.py lines 723-726). -/
def finishRun (stages : Stages) (parent_task : String) (full_history : List IterationRecord)
    (ctr : List Nat) (it : Nat) : RunOutcome :=
  if full_history.isEmpty then ⟨.ok errNoHistory, ctr, it⟩
  else ⟨.ok (stages.synthesize parent_task full_history), ctr, it⟩

/-- The `while True` body of `Orchestrator.run` (main.py lines 674-721), with
`fuel` bounding the recursion (the caller passes `maxIterations + 1`, which the
iteration-cap check at line 719 makes sufficient).  Attribute reads on the reviewer
result follow Python evaluation order: line 700 reads `next_iteration_guidance`
(declared), line 703 reads `iteration_assessment` (not declared — `AttributeError`),
line 706 reads `selected_context` (not declared), and the halt check at lines
713-715 reads `iteration_assessment` again unless the `or` short-circuits. -/
def runLoop (stages : Stages) (maxIterations stagnationThreshold : Nat) (parent_task : String) :
    Nat → Nat → List IterationRecord → Option NextIterationGuidance → Nat → List Nat → RunOutcome
  | 0, it, _, _, _, ctr => ⟨.error (.valueError "loop fuel exhausted"), ctr, it⟩
  | fuel + 1, it, full_history, previous_review_guidance, iterations_no_progress, ctr =>
    let current_iteration := it + 1
    match preparePlannerGuidancePrompt previous_review_guidance full_history with
    | .error e => ⟨.error e, ctr, current_iteration⟩
    | .ok guidance_prompt_segment =>
      let current_exploration_plans :=
        generatePlan stages.plannerCall parent_task guidance_prompt_segment
      if current_exploration_plans.isEmpty && full_history.isEmpty then
        ⟨.ok errNoInitialPlan, ctr, current_iteration⟩
      else
        match executeExplorationSteps stages.think current_exploration_plans parent_task with
        | .error e => ⟨.error (.valueError e), ctr, current_iteration⟩
        | .ok (updated_exploration_plans, _, _) =>
          match reviewerReview (stages.reviewerCall parent_task updated_exploration_plans
              current_iteration iterations_no_progress stagnationThreshold) with
          | .error e => ⟨.error e, ctr, current_iteration⟩
          | .ok review_obj =>
            let hist1 := full_history ++ [⟨updated_exploration_plans, review_obj⟩]
            let next_guidance := review_obj.next_iteration_guidance
            match review_obj.getattr "iteration_assessment" with
            | .error e => ⟨.error e, ctr, current_iteration⟩
            | .ok _assessLog =>
              match review_obj.getattr "selected_context" with
              | .error e => ⟨.error e, ctr, current_iteration⟩
              | .ok sel =>
                let noProg1 := if sel.truthy then 0 else iterations_no_progress + 1
                let ctr1 := ctr ++ [noProg1]
                let haltCheck : Except PyErr Bool :=
                  if haltActions.contains next_guidance.action then .ok true
                  else
                    match review_obj.getattr "iteration_assessment" with
                    | .error e => .error e
                    | .ok a => .ok (a == AttrVal.vstr "ERROR_IN_REVIEW_PROCESSING")
                match haltCheck with
                | .error e => ⟨.error e, ctr1, current_iteration⟩
                | .ok halt =>
                  if halt then
                    match review_obj.getattr "iteration_assessment" with
                    | .error e => ⟨.error e, ctr1, current_iteration⟩
                    | .ok _haltReason => finishRun stages parent_task hist1 ctr1 current_iteration
                  else if maxIterations ≤ current_iteration then
                    finishRun stages parent_task hist1 ctr1 current_iteration
                  else
                    runLoop stages maxIterations stagnationThreshold parent_task fuel
                      current_iteration hist1 (some next_guidance) noProg1 ctr1

/-- Default `Orchestrator.MAX_ITERATIONS`. -/
def MAX_ITERATIONS : Nat := 7

/-- Default `Orchestrator.STAGNATION_THRESHOLD`. -/
def STAGNATION_THRESHOLD : Nat := 2

/-- Model of `Orchestrator.run` (main.py lines 668-726). -/
def orchestratorRun (stages : Stages) (maxIterations stagnationThreshold : Nat)
    (parent_task : String) : RunOutcome :=
  runLoop stages maxIterations stagnationThreshold parent_task (maxIterations + 1) 0 [] none 0 []

/-! ## Concrete stage behaviours and inputs used to evaluate the code -/

/-- A thinker stub returning a fixed string. -/
def thinkR : String → Option String → String → String := fun _ _ _ => "R"

/-- A reviewer result that is valid for `app/schemas.py` and never halts
(`action = "BROADEN"`). -/
def broadenReview : ReviewerOut :=
  { assessment_of_current_iteration := "iteration reviewed", is_sufficient_for_synthesis := false,
    next_iteration_guidance := { action := "BROADEN", reasoning := "keep broadening" } }

/-- A reviewer result that is valid for `app/schemas.py` with `action = "DEEPEN"`. -/
def deepenReview : ReviewerOut :=
  { assessment_of_current_iteration := "iteration reviewed", is_sufficient_for_synthesis := false,
    next_iteration_guidance := { action := "DEEPEN", reasoning := "go deeper",
                                 target_plan_id := some "A", target_step_id := some "1" } }

/-- A reviewer result selecting context (a non-empty `context_to_use`). -/
def gemReview : ReviewerOut :=
  { broadenReview with context_to_use := some [⟨"A", ["1"]⟩] }

/-- A single one-step plan, as a planner result. -/
def onePlanOut : PlannerOut :=
  ⟨[{ plan_id := "A", strategy := "direct", steps := [{ step_id := "1", instructions := "solve" }] }]⟩

/-- Stages where every call succeeds and the reviewer always answers `BROADEN`
(never a halt action). -/
def stagesBroaden : Stages :=
  { plannerCall := fun _ _ => .ok onePlanOut
    think := thinkR
    reviewerCall := fun _ _ _ _ _ => .ok broadenReview
    synthesize := fun _ _ => "SYNTHESIZED" }

/-- Stages where the reviewer stage raises on every call. -/
def stagesReviewRaises : Stages :=
  { stagesBroaden with reviewerCall := fun _ _ _ _ _ => .error (.stageError "review boom") }

/-- Stages where the reviewer answers `DEEPEN` on every call. -/
def stagesDeepen : Stages :=
  { stagesBroaden with reviewerCall := fun _ _ _ _ _ => .ok deepenReview }

/-- Stages for the stagnation-counter scenario: no selected context on iterations 1
and 2, a non-empty selection on iteration 3. -/
def stagesStagnation : Stages :=
  { stagesBroaden with
    reviewerCall := fun _ _ it _ _ => .ok (if it ≤ 2 then broadenReview else gemReview) }

/-- Stages whose planner raises on every call. -/
def stagesPlannerRaises : Stages :=
  { stagesBroaden with plannerCall := fun _ _ => .error (.stageError "planner boom") }

/-- A `DEEPEN` guidance with both target ids present. -/
def deepenGuidance : NextIterationGuidance :=
  { action := "DEEPEN", reasoning := "go deeper",
    target_plan_id := some "A", target_step_id := some "1" }

/-- A one-iteration history in which plan `A` step `1` has a recorded response. -/
def historyA1 : List IterationRecord :=
  [{ plans_with_responses :=
       [{ plan_id := "A", strategy := "direct",
          steps := [{ step_id := "1", instructions := "solve", response := some "R" }] }],
     review := broadenReview }]

/-- A guidance violating the claimed synthesis-ready equivalence when paired with a
true sufficiency flag (`action = "BROADEN"`, not `HALT_SUFFICIENT`). -/
def violatingGuidance : NextIterationGuidance := { action := "BROADEN", reasoning := "more" }

/-- A dependency chain inside one plan, listed against declared order: step `2`
depends on step `1`, which appears after it. -/
def plansChain : List ExplorationPlan :=
  [{ plan_id := "A", strategy := "chain", steps :=
     [{ step_id := "2", instructions := "use step 1", dependencies := some ["A.1"] },
      { step_id := "1", instructions := "start" }] }]

/-- Plans with a duplicated qualified step id (`A.1` twice) and one step with a
dependency on the nonexistent qualified id `X.Y`. -/
def plansDupQname : List ExplorationPlan :=
  [{ plan_id := "A", strategy := "dup", steps :=
     [{ step_id := "1", instructions := "first" },
      { step_id := "1", instructions := "shadowed duplicate" },
      { step_id := "2", instructions := "blocked", dependencies := some ["X.Y"] }] }]

/-- Plans with unique qualified ids, one satisfiable chain and one step with a
dependency on the nonexistent qualified id `X.Y`. -/
def plansWithBadDep : List ExplorationPlan :=
  [{ plan_id := "A", strategy := "mixed", steps :=
     [{ step_id := "1", instructions := "start" },
      { step_id := "2", instructions := "use step 1", dependencies := some ["A.1"] },
      { step_id := "3", instructions := "blocked", dependencies := some ["X.Y"] }] }]

/-- The result of running the executor on `plansDupQname`: only the first of the
two `A.1` steps executes (the second is skipped by the qualified-name guard), and
the `X.Y`-blocked step stays unset. -/
def plansDupQnameAfter : List ExplorationPlan :=
  [{ plan_id := "A", strategy := "dup", steps :=
     [{ step_id := "1", instructions := "first", response := some "R" },
      { step_id := "1", instructions := "shadowed duplicate" },
      { step_id := "2", instructions := "blocked", dependencies := some ["X.Y"] }] }]

/-! ## Executor invariants -/

/-- The invariant the executor state maintains: the dict keys, executed set and
trace agree; executed names are distinct, drawn from the work list, and sound with
respect to the satisfiability closure; every trace event snapshots exactly the
previously executed names, corresponds to a work item, and had all its dependencies
completed at invocation time. -/
structure ExecInv (work : List WorkItem) (st : ExecSt) : Prop where
  keysEq : st.completed.map Prod.fst = st.executed
  traceQ : st.trace.map ThinkEvent.qname = st.executed
  nodup : st.executed.Nodup
  execMem : ∀ q ∈ st.executed, q ∈ workQnames work
  sound : ∀ q ∈ st.executed, q ∈ satIter work st.executed.length
  cb : ∀ k (h : k < st.trace.length),
    (st.trace.get ⟨k, h⟩).completedBefore = (st.trace.take k).map ThinkEvent.qname
  events : ∀ e ∈ st.trace, ∃ w ∈ work,
    w.pidx = e.pidx ∧ w.sidx = e.sidx ∧ w.qname = e.qname ∧ w.deps = e.deps
  eventDeps : ∀ e ∈ st.trace, ∀ d ∈ e.deps, d ∈ e.completedBefore

/-- An executed-set closed under the one-step dependency operator: every work item
whose dependencies are all executed is itself executed. -/
def ExecClosed (work : List WorkItem) (st : ExecSt) : Prop :=
  ∀ w ∈ work, (∀ d ∈ w.deps, d ∈ st.executed) → w.qname ∈ st.executed

/-! # Theorems -/

/-! ## Helper lemmas about the satisfiability closure -/

theorem satIter_succ_subset (work : List WorkItem) (k : Nat) :
    satIter work k ⊆ satIter work (k + 1) := by
  induction k with
  | zero => intro x hx; simp [satIter] at hx
  | succ k ih =>
    intro x hx
    simp only [satIter, List.mem_map, List.mem_filter] at hx ⊢
    obtain ⟨w, ⟨hw, hall⟩, rfl⟩ := hx
    refine ⟨w, ⟨hw, ?_⟩, rfl⟩
    rw [List.all_eq_true] at hall ⊢
    intro d hd
    exact List.elem_iff.mpr (ih (List.elem_iff.mp (hall d hd)))

theorem satIter_mono (work : List WorkItem) {k m : Nat} (h : k ≤ m) :
    satIter work k ⊆ satIter work m := by
  induction h with
  | refl => exact fun x hx => hx
  | step _ ih => exact fun x hx => satIter_succ_subset work _ (ih hx)

theorem satIter_subset_qnames (work : List WorkItem) (k : Nat) :
    satIter work k ⊆ workQnames work := by
  cases k with
  | zero => intro x hx; simp [satIter] at hx
  | succ k =>
    intro x hx
    simp only [satIter, List.mem_map, List.mem_filter] at hx
    obtain ⟨w, ⟨hw, _⟩, rfl⟩ := hx
    exact List.mem_map_of_mem _ hw

theorem satIter_succ_mem {work : List WorkItem} {w : WorkItem} (hw : w ∈ work) {k : Nat}
    (hdeps : ∀ d ∈ w.deps, d ∈ satIter work k) : w.qname ∈ satIter work (k + 1) := by
  simp only [satIter, List.mem_map, List.mem_filter]
  refine ⟨w, ⟨hw, ?_⟩, rfl⟩
  rw [List.all_eq_true]
  intro d hd
  exact List.elem_iff.mpr (hdeps d hd)

theorem depsNeverSatisfiable_of_missing {work : List WorkItem} {deps : List String} {d : String}
    (hd : d ∈ deps) (hmem : d ∉ workQnames work) : DepsNeverSatisfiable work deps := by
  intro k hall
  exact hmem (satIter_subset_qnames work k (hall d hd))

/-! ## Helper lemmas about lookup and dotted names -/

theorem lookup_isSome_iff (a : String) (l : List (String × String)) :
    (List.lookup a l).isSome = true ↔ a ∈ l.map Prod.fst := by
  induction l with
  | nil => simp [List.lookup]
  | cons p rest ih =>
    obtain ⟨k, v⟩ := p
    by_cases h : a = k
    · simp [List.lookup, h]
    · have hbeq : (a == k) = false := by simp [h]
      simp [List.lookup, hbeq, ih, h]

theorem splitDotAux_isSome (xs ys : List Char) :
    (splitDotAux (xs ++ '.' :: ys)).isSome := by
  induction xs with
  | nil => simp [splitDotAux]
  | cons c cs ih =>
    simp only [List.cons_append, splitDotAux]
    by_cases h : c = '.'
    · simp [h]
    · rw [if_neg h]
      cases hm : splitDotAux (cs ++ '.' :: ys) with
      | none => rw [hm] at ih; simp at ih
      | some p => simp

theorem splitQname_dotted_isSome (a b : String) :
    (splitQname (a ++ "." ++ b)).isSome := by
  unfold splitQname
  have hdata : (a ++ "." ++ b).data = a.data ++ '.' :: b.data := by
    simp [String.data_append]
  rw [hdata]
  cases hm : splitDotAux (a.data ++ '.' :: b.data) with
  | none =>
    have := splitDotAux_isSome a.data b.data
    rw [hm] at this
    simp at this
  | some p => simp

/-! ## Helper lemmas about distinct lists -/

theorem nodup_subset_length_le {l lu : List String} (hn : l.Nodup) (hs : l ⊆ lu) :
    l.length ≤ lu.length := by
  have h2 : l.toFinset.card = l.length := List.toFinset_card_of_nodup hn
  have h1 : l.toFinset ⊆ lu.toFinset :=
    fun y hy => List.mem_toFinset.mpr (hs (List.mem_toFinset.mp hy))
  have h4 := Finset.card_le_card h1
  have h3 := lu.toFinset_card_le
  omega

theorem mem_of_nodup_subset_length_le {l lu : List String} (hn : l.Nodup)
    (hs : l ⊆ lu) (hl : lu.length ≤ l.length) : ∀ x ∈ lu, x ∈ l := by
  intro x hx
  have h1 : l.toFinset ⊆ lu.toFinset :=
    fun y hy => List.mem_toFinset.mpr (hs (List.mem_toFinset.mp hy))
  have h2 : l.toFinset.card = l.length := List.toFinset_card_of_nodup hn
  have h3 := lu.toFinset_card_le
  have h4 : lu.toFinset ⊆ l.toFinset :=
    Finset.subset_of_eq (Finset.eq_of_subset_of_card_le h1 (by omega)).symm
  exact List.mem_toFinset.mp (h4 (List.mem_toFinset.mpr hx))

/-! ## Helper lemmas: the flattened work list and step positions -/

theorem WorkItem.ext_eq {w1 w2 : WorkItem} (h1 : w1.pidx = w2.pidx) (h2 : w1.sidx = w2.sidx)
    (h3 : w1.qname = w2.qname) (h4 : w1.deps = w2.deps)
    (h5 : w1.instructions = w2.instructions) : w1 = w2 := by
  cases w1; cases w2; simp_all

theorem stepsWork_mem {pid : String} {i : Nat} {w : WorkItem} :
    ∀ {j0 : Nat} {steps : List PlanStep}, w ∈ stepsWork pid i j0 steps →
      ∃ jp s, steps[jp]? = some s ∧ w.pidx = i ∧ w.sidx = j0 + jp ∧
        w.qname = pid ++ "." ++ s.step_id ∧ w.deps = s.dependencies.getD [] ∧
        w.instructions = s.instructions := by
  intro j0 steps
  induction steps generalizing j0 with
  | nil => intro h; simp [stepsWork] at h
  | cons s rest ih =>
    intro h
    simp only [stepsWork, List.mem_cons] at h
    rcases h with h | h
    · subst h
      exact ⟨0, s, by simp, rfl, by simp, rfl, rfl, rfl⟩
    · obtain ⟨jp, s', hs', hp, hsx, hq, hd, hi⟩ := ih h
      refine ⟨jp + 1, s', by simpa using hs', hp, by omega, hq, hd, hi⟩

theorem stepsWork_mem_of_get (pid : String) (i : Nat) :
    ∀ (j0 : Nat) {jp : Nat} {steps : List PlanStep} {s : PlanStep}, steps[jp]? = some s →
      (⟨i, j0 + jp, pid ++ "." ++ s.step_id, s.dependencies.getD [], s.instructions⟩ : WorkItem)
        ∈ stepsWork pid i j0 steps := by
  intro j0 jp steps
  induction steps generalizing j0 jp with
  | nil => intro s h; simp at h
  | cons s0 rest ih =>
    intro s h
    cases jp with
    | zero =>
      simp only [List.getElem?_cons_zero, Option.some.injEq] at h
      subst h
      simp [stepsWork]
    | succ jp =>
      simp only [List.getElem?_cons_succ] at h
      simp only [stepsWork, List.mem_cons]
      right
      have heq : j0 + (jp + 1) = (j0 + 1) + jp := by omega
      rw [heq]
      exact ih (j0 + 1) h

theorem plansWork_mem {w : WorkItem} :
    ∀ {i0 : Nat} {plans : List ExplorationPlan}, w ∈ plansWork i0 plans →
      ∃ ip p jp s, plans[ip]? = some p ∧ p.steps[jp]? = some s ∧
        w.pidx = i0 + ip ∧ w.sidx = jp ∧ w.qname = planStepQname p s ∧
        w.deps = s.dependencies.getD [] ∧ w.instructions = s.instructions := by
  intro i0 plans
  induction plans generalizing i0 with
  | nil => intro h; simp [plansWork] at h
  | cons p rest ih =>
    intro h
    simp only [plansWork, List.mem_append] at h
    rcases h with h | h
    · obtain ⟨jp, s, hs, hp, hsx, hq, hd, hi⟩ := stepsWork_mem h
      exact ⟨0, p, jp, s, by simp, hs, by omega, by simpa using hsx, hq, hd, hi⟩
    · obtain ⟨ip, p', jp, s, hps, hs, hp, hsx, hq, hd, hi⟩ := ih h
      exact ⟨ip + 1, p', jp, s, by simpa using hps, hs, by omega, hsx, hq, hd, hi⟩

theorem plansWork_mem_of_get :
    ∀ (i0 : Nat) {ip jp : Nat} {plans : List ExplorationPlan} {p : ExplorationPlan} {s : PlanStep},
      plans[ip]? = some p → p.steps[jp]? = some s →
      (⟨i0 + ip, jp, planStepQname p s, s.dependencies.getD [], s.instructions⟩ : WorkItem)
        ∈ plansWork i0 plans := by
  intro i0 ip jp plans
  induction plans generalizing i0 ip with
  | nil => intro p s h; simp at h
  | cons p0 rest ih =>
    intro p s hp hs
    cases ip with
    | zero =>
      simp only [List.getElem?_cons_zero, Option.some.injEq] at hp
      subst hp
      simp only [plansWork, List.mem_append]
      left
      have := stepsWork_mem_of_get p0.plan_id i0 0 hs
      simpa [planStepQname] using this
    | succ ip =>
      simp only [List.getElem?_cons_succ] at hp
      simp only [plansWork, List.mem_append]
      right
      have heq : i0 + (ip + 1) = (i0 + 1) + ip := by omega
      rw [heq]
      exact ih (i0 + 1) hp hs

theorem plansWork_pos_inj {w1 w2 : WorkItem} {i0 : Nat} {plans : List ExplorationPlan}
    (h1 : w1 ∈ plansWork i0 plans) (h2 : w2 ∈ plansWork i0 plans)
    (hp : w1.pidx = w2.pidx) (hs : w1.sidx = w2.sidx) : w1 = w2 := by
  obtain ⟨ip1, p1, jp1, s1, hps1, hs1, hpx1, hsx1, hq1, hd1, hi1⟩ := plansWork_mem h1
  obtain ⟨ip2, p2, jp2, s2, hps2, hs2, hpx2, hsx2, hq2, hd2, hi2⟩ := plansWork_mem h2
  have hip : ip1 = ip2 := by omega
  subst hip
  have hpp : p1 = p2 := Option.some_injective _ (hps1.symm.trans hps2)
  subst hpp
  have hjp : jp1 = jp2 := by omega
  subst hjp
  have hss : s1 = s2 := Option.some_injective _ (hs1.symm.trans hs2)
  subst hss
  exact WorkItem.ext_eq (by omega) (by omega) (hq1.trans hq2.symm)
    (hd1.trans hd2.symm) (hi1.trans hi2.symm)

theorem mkWorkList_mem {w : WorkItem} {plans : List ExplorationPlan} (h : w ∈ mkWorkList plans) :
    ∃ p s, plans[w.pidx]? = some p ∧ p.steps[w.sidx]? = some s ∧
      w.qname = planStepQname p s ∧ w.deps = s.dependencies.getD [] ∧
      w.instructions = s.instructions := by
  obtain ⟨ip, p, jp, s, hps, hs, hpx, hsx, hq, hd, hi⟩ := plansWork_mem h
  refine ⟨p, s, ?_, ?_, hq, hd, hi⟩
  · rw [hpx, Nat.zero_add]; exact hps
  · rw [hsx]; exact hs

theorem mkWorkList_mem_of_get {plans : List ExplorationPlan} {ip jp : Nat}
    {p : ExplorationPlan} {s : PlanStep} (hp : plans[ip]? = some p)
    (hs : p.steps[jp]? = some s) :
    (⟨ip, jp, planStepQname p s, s.dependencies.getD [], s.instructions⟩ : WorkItem)
      ∈ mkWorkList plans := by
  have := plansWork_mem_of_get 0 hp hs
  simpa [mkWorkList] using this

/-! ## Helper lemmas: the executor preserves its invariant -/

theorem depOutputsXml_ok (completed : List (String × String)) :
    ∀ deps : List String, (∀ d ∈ deps, (splitQname d).isSome) →
      ∃ parts, depOutputsXml completed deps = .ok parts := by
  intro deps
  induction deps with
  | nil => intro _; exact ⟨[], rfl⟩
  | cons d ds ih =>
    intro h
    have hd := h d (by simp)
    obtain ⟨pr, hpr⟩ := Option.isSome_iff_exists.mp hd
    obtain ⟨pid, sid⟩ := pr
    obtain ⟨parts, hparts⟩ := ih (fun x hx => h x (by simp [hx]))
    cases hres : depOutputsXml completed (d :: ds) with
    | ok out => exact ⟨out, rfl⟩
    | error e =>
      simp only [depOutputsXml, hpr, hparts] at hres
      cases hres

theorem buildDepContext_ok (completed : List (String × String)) (deps : List String)
    (h : ∀ d ∈ deps, (splitQname d).isSome) :
    ∃ ctx, buildDepContext completed deps = .ok ctx := by
  by_cases he : deps.isEmpty = true
  · exact ⟨none, by simp [buildDepContext, he]⟩
  · obtain ⟨parts, hp⟩ := depOutputsXml_ok completed deps h
    cases hres : buildDepContext completed deps with
    | ok c => exact ⟨c, rfl⟩
    | error e =>
      simp [buildDepContext, he, hp] at hres

theorem mkWorkList_qnames_dotted {plans : List ExplorationPlan} :
    ∀ q ∈ workQnames (mkWorkList plans), (splitQname q).isSome := by
  intro q hq
  obtain ⟨w, hw, rfl⟩ := List.mem_map.mp hq
  obtain ⟨p, s, _, _, hqname, _, _⟩ := mkWorkList_mem hw
  rw [hqname]
  exact splitQname_dotted_isSome p.plan_id s.step_id

theorem cb_append {trace : List ThinkEvent} {e : ThinkEvent}
    (hcb : ∀ k (h : k < trace.length),
      (trace.get ⟨k, h⟩).completedBefore = (trace.take k).map ThinkEvent.qname)
    (he : e.completedBefore = trace.map ThinkEvent.qname) :
    ∀ k (h : k < (trace ++ [e]).length),
      ((trace ++ [e]).get ⟨k, h⟩).completedBefore
        = ((trace ++ [e]).take k).map ThinkEvent.qname := by
  intro k h
  rcases Nat.lt_or_ge k trace.length with hk | hk
  · rw [List.get_append _ hk, List.take_append_of_le_length (Nat.le_of_lt hk)]
    exact hcb k hk
  · have hlen : k = trace.length := by
      simp only [List.length_append, List.length_singleton] at h
      omega
    subst hlen
    have h1 : (trace ++ [e]).get ⟨trace.length, h⟩ = e := by
      rw [List.get_append_right] <;> simp
    rw [h1, List.take_append_of_le_length (Nat.le_refl _)]
    simpa using he

/-- The specification of one work-item visit: it succeeds, preserves the executor
invariant, grows `executed` by exactly the growth of `executed_in_this_pass`, leaves
the pass counter alone, only appends to the trace and executed list, and when it
does nothing the state is unchanged because the step was already executed or its
dependencies were not all completed. -/
theorem processItem_spec (think : String → Option String → String → String) (task : String)
    {work : List WorkItem} {w : WorkItem} (hw : w ∈ work) {st : ExecSt}
    (hinv : ExecInv work st)
    (hdot : ∀ q ∈ workQnames work, (splitQname q).isSome) :
    ∃ st', processItem think task w st = .ok st' ∧ ExecInv work st' ∧
      st.executed.length + (st'.execInPass - st.execInPass) = st'.executed.length ∧
      st.execInPass ≤ st'.execInPass ∧
      st'.passesRun = st.passesRun ∧
      (∃ tl, st'.trace = st.trace ++ tl) ∧
      (∃ tl, st'.executed = st.executed ++ tl) ∧
      (st'.execInPass = st.execInPass →
        st' = st ∧ (w.qname ∈ st.executed ∨ ¬ ∀ d ∈ w.deps, d ∈ st.executed)) := by
  unfold processItem
  cases hc : st.executed.contains w.qname with
  | true =>
    refine ⟨st, by simp, hinv, by omega, Nat.le_refl _, rfl, ⟨[], by simp⟩, ⟨[], by simp⟩, ?_⟩
    intro _
    exact ⟨rfl, Or.inl (List.elem_iff.mp hc)⟩
  | false =>
    cases hall : w.deps.all (fun d => (List.lookup d st.completed).isSome) with
    | false =>
      refine ⟨st, by simp, hinv, by omega, Nat.le_refl _, rfl, ⟨[], by simp⟩, ⟨[], by simp⟩, ?_⟩
      intro _
      refine ⟨rfl, Or.inr ?_⟩
      intro hforall
      rw [← Bool.not_eq_true] at hall
      apply hall
      rw [List.all_eq_true]
      intro d hd
      rw [lookup_isSome_iff, hinv.keysEq]
      exact hforall d hd
    | true =>
      have hdeps : ∀ d ∈ w.deps, d ∈ st.executed := by
        intro d hd
        have := (List.all_eq_true.mp hall) d hd
        rw [lookup_isSome_iff, hinv.keysEq] at this
        exact this
      have hdepsDotted : ∀ d ∈ w.deps, (splitQname d).isSome := by
        intro d hd
        exact hdot d (hinv.execMem d (hdeps d hd))
      obtain ⟨ctx, hctx⟩ := buildDepContext_ok st.completed w.deps hdepsDotted
      rw [hctx]
      have hqnotin : w.qname ∉ st.executed := by
        intro hmem
        have h2 : st.executed.contains w.qname = true := List.elem_iff.mpr hmem
        rw [hc] at h2
        exact Bool.noConfusion h2
      refine ⟨_, rfl, ?_, ?_, ?_, rfl, ⟨_, rfl⟩, ⟨_, rfl⟩, ?_⟩
      · constructor
        · simp only [List.map_append, hinv.keysEq]
          rfl
        · simp only [List.map_append, hinv.traceQ]
          rfl
        · simp only [List.nodup_append, hinv.nodup, List.nodup_singleton, true_and]
          simp [List.disjoint_singleton, hqnotin]
        · intro q hq
          simp only [List.mem_append, List.mem_singleton] at hq
          rcases hq with hq | hq
          · exact hinv.execMem q hq
          · subst hq
            exact List.mem_map_of_mem _ hw
        · intro q hq
          have hlen : (st.executed ++ [w.qname]).length = st.executed.length + 1 := by
            simp
          rw [hlen]
          simp only [List.mem_append, List.mem_singleton] at hq
          rcases hq with hq | hq
          · exact satIter_succ_subset work _ (hinv.sound q hq)
          · subst hq
            refine satIter_succ_mem hw ?_
            intro d hd
            exact hinv.sound d (hdeps d hd)
        · refine cb_append hinv.cb ?_
          simp only [hinv.keysEq, hinv.traceQ]
        · intro e he
          simp only [List.mem_append, List.mem_singleton] at he
          rcases he with he | he
          · exact hinv.events e he
          · subst he
            exact ⟨w, hw, rfl, rfl, rfl, rfl⟩
        · intro e he
          simp only [List.mem_append, List.mem_singleton] at he
          rcases he with he | he
          · exact hinv.eventDeps e he
          · subst he
            intro d hd
            simp only [hinv.keysEq]
            exact hdeps d hd
      · simp only [List.length_append, List.length_singleton]
        omega
      · simp
      · intro habs
        simp at habs

theorem workQnames_length (work : List WorkItem) :
    (workQnames work).length = work.length := by
  simp [workQnames]

theorem execInv_reset {work : List WorkItem} {st : ExecSt} (hinv : ExecInv work st)
    (n p : Nat) : ExecInv work { st with execInPass := n, passesRun := p } :=
  ⟨hinv.keysEq, hinv.traceQ, hinv.nodup, hinv.execMem, hinv.sound, hinv.cb,
   hinv.events, hinv.eventDeps⟩

theorem execClosed_of_full {work : List WorkItem} {st : ExecSt} (hinv : ExecInv work st)
    (hn : work.length ≤ st.executed.length) : ExecClosed work st := by
  have hcover := mem_of_nodup_subset_length_le hinv.nodup
    (fun q hq => hinv.execMem q hq) (by rw [workQnames_length]; exact hn)
  intro w hw _
  exact hcover _ (List.mem_map_of_mem _ hw)

/-- The specification of one full pass: it succeeds, preserves the invariant, grows
`executed` by exactly `executed_in_this_pass`, and a pass that executes nothing
leaves the state unchanged because every work item was already executed or blocked. -/
theorem runPass_spec (think : String → Option String → String → String) (task : String)
    {work : List WorkItem} (hdot : ∀ q ∈ workQnames work, (splitQname q).isSome) :
    ∀ (ws : List WorkItem), (∀ w ∈ ws, w ∈ work) → ∀ (st : ExecSt), ExecInv work st →
      ∃ st', runPass think task ws st = .ok st' ∧ ExecInv work st' ∧
        st.executed.length + (st'.execInPass - st.execInPass) = st'.executed.length ∧
        st.execInPass ≤ st'.execInPass ∧
        st'.passesRun = st.passesRun ∧
        (∃ tl, st'.trace = st.trace ++ tl) ∧
        (∃ tl, st'.executed = st.executed ++ tl) ∧
        (st'.execInPass = st.execInPass →
          st' = st ∧ ∀ w ∈ ws, w.qname ∈ st.executed ∨ ¬ ∀ d ∈ w.deps, d ∈ st.executed) := by
  intro ws
  induction ws with
  | nil =>
    intro _ st hinv
    exact ⟨st, rfl, hinv, by omega, Nat.le_refl _, rfl, ⟨[], by simp⟩, ⟨[], by simp⟩,
      fun _ => ⟨rfl, by simp⟩⟩
  | cons w ws ih =>
    intro hws st hinv
    obtain ⟨st1, hp1, hinv1, hc1, hle1, hpr1, ⟨t1, ht1⟩, ⟨e1, he1⟩, hnc1⟩ :=
      processItem_spec think task (hws w (by simp)) hinv hdot
    obtain ⟨st2, hp2, hinv2, hc2, hle2, hpr2, ⟨t2, ht2⟩, ⟨e2, he2⟩, hnc2⟩ :=
      ih (fun x hx => hws x (by simp [hx])) st1 hinv1
    refine ⟨st2, ?_, hinv2, by omega, by omega, by rw [hpr2, hpr1],
      ⟨t1 ++ t2, by rw [ht2, ht1, List.append_assoc]⟩,
      ⟨e1 ++ e2, by rw [he2, he1, List.append_assoc]⟩, ?_⟩
    · simp only [runPass, hp1, hp2]
    · intro heq
      have h1 : st1.execInPass = st.execInPass := by omega
      obtain ⟨hst1eq, hw1⟩ := hnc1 h1
      subst hst1eq
      obtain ⟨hst2eq, hws2⟩ := hnc2 heq
      refine ⟨hst2eq, ?_⟩
      intro x hx
      rcases List.mem_cons.mp hx with rfl | hx
      · exact hw1
      · exact hws2 x hx

/-- The specification of the pass loop: it succeeds, the final state satisfies the
invariant and is closed under the one-step dependency operator, and at most
`work.length + 1` passes sweep the work list. -/
theorem execLoop_spec (think : String → Option String → String → String) (task : String)
    (work : List WorkItem) (hdot : ∀ q ∈ workQnames work, (splitQname q).isSome) :
    ∀ (fuel passNum : Nat) (st : ExecSt), ExecInv work st →
      fuel + passNum = work.length + 1 →
      (1 ≤ passNum → passNum - 1 ≤ st.executed.length) →
      st.passesRun ≤ passNum →
      ∃ st', execLoop think task work work.length fuel passNum st = .ok st' ∧
        ExecInv work st' ∧ ExecClosed work st' ∧ st'.passesRun ≤ work.length + 1 := by
  intro fuel
  induction fuel with
  | zero =>
    intro passNum st hinv hfp hcnt hpr
    refine ⟨st, rfl, hinv, ?_, by omega⟩
    have hn : work.length ≤ st.executed.length := by
      have := hcnt (by omega)
      omega
    exact execClosed_of_full hinv hn
  | succ fuel ih =>
    intro passNum st hinv hfp hcnt hpr
    cases hlen : st.executed.length == work.length with
    | true =>
      have hleq : st.executed.length = work.length := by simpa using hlen
      have hn : work.length ≤ st.executed.length := by omega
      refine ⟨st, ?_, hinv, execClosed_of_full hinv hn, by omega⟩
      simp [execLoop, hlen]
    | false =>
      obtain ⟨st1, hp1, hinv1, hc1, hle1, hpr1, _, _, hnc1⟩ :=
        runPass_spec think task hdot work (fun w hw => hw)
          { st with execInPass := 0, passesRun := st.passesRun + 1 }
          (execInv_reset hinv 0 (st.passesRun + 1))
      have hc1x : st.executed.length + st1.execInPass = st1.executed.length := hc1
      have hpr1x : st1.passesRun = st.passesRun + 1 := hpr1
      have hnc1x : st1.execInPass = 0 →
          st1 = { st with execInPass := 0, passesRun := st.passesRun + 1 } ∧
          ∀ w ∈ work, w.qname ∈ st.executed ∨ ¬ ∀ d ∈ w.deps, d ∈ st.executed := hnc1
      have hstep : execLoop think task work work.length (fuel + 1) passNum st =
          (if decide (0 < passNum) && st1.execInPass == 0 &&
              decide (st1.executed.length < work.length)
           then Except.ok st1
           else execLoop think task work work.length fuel (passNum + 1) st1) := by
        simp [execLoop, hlen, hp1]
      have hpassLe : passNum ≤ work.length := by omega
      cases hbr : decide (0 < passNum) && st1.execInPass == 0 &&
          decide (st1.executed.length < work.length) with
      | true =>
        rw [hbr, if_pos rfl] at hstep
        simp only [Bool.and_eq_true, decide_eq_true_eq, beq_iff_eq] at hbr
        obtain ⟨⟨hpn, hzero⟩, hlt⟩ := hbr
        obtain ⟨hsteq, hblocked⟩ := hnc1x hzero
        refine ⟨st1, hstep, hinv1, ?_, by omega⟩
        intro w hw hdeps
        rcases hblocked w hw with hq | hnd
        · rw [hsteq]
          exact hq
        · exfalso
          apply hnd
          intro d hd
          have := hdeps d hd
          rw [hsteq] at this
          exact this
      | false =>
        rw [hbr] at hstep
        simp only [Bool.false_eq_true, if_false] at hstep
        have hcnt1 : 1 ≤ passNum + 1 → passNum + 1 - 1 ≤ st1.executed.length := by
          intro _
          rcases Nat.eq_zero_or_pos passNum with hp0 | hp0
          · omega
          · have hd1 : decide (0 < passNum) = true := decide_eq_true hp0
            rw [hd1, Bool.true_and] at hbr
            cases hz : st1.execInPass == 0 with
            | false =>
              have hnz : st1.execInPass ≠ 0 := by simpa using hz
              have hst := hcnt hp0
              omega
            | true =>
              rw [hz, Bool.true_and] at hbr
              have hge : ¬ st1.executed.length < work.length := of_decide_eq_false hbr
              omega
        have hfp1 : fuel + (passNum + 1) = work.length + 1 := by omega
        have hpr1y : st1.passesRun ≤ passNum + 1 := by omega
        obtain ⟨stf, hloop, hinvf, hclosedf, hprf⟩ := ih (passNum + 1) st1 hinv1 hfp1 hcnt1 hpr1y
        exact ⟨stf, by rw [hstep, hloop], hinvf, hclosedf, hprf⟩

theorem execInvInit (work : List WorkItem) : ExecInv work ⟨[], [], [], 0, 0⟩ :=
  ⟨rfl, rfl, List.nodup_nil, by simp, by simp, fun k h => absurd h (by simp),
   by simp, by simp⟩

/-- The master specification of `_execute_exploration_steps`: it always succeeds,
returning the input plans with responses applied from the trace, with a final state
satisfying the executor invariant, closed under the one-step dependency operator,
and produced by at most `step count + 1` passes. -/
theorem executeExplorationSteps_spec (think : String → Option String → String → String)
    (plans : List ExplorationPlan) (task : String) :
    ∃ st : ExecSt,
      executeExplorationSteps think plans task
        = .ok (applyResponses st.trace 0 plans, st.trace, st.passesRun) ∧
      ExecInv (mkWorkList plans) st ∧ ExecClosed (mkWorkList plans) st ∧
      st.passesRun ≤ (mkWorkList plans).length + 1 := by
  by_cases hemp : plans.isEmpty = true
  · have hnil : plans = [] := List.isEmpty_iff.mp hemp
    subst hnil
    refine ⟨⟨[], [], [], 0, 0⟩, ?_, execInvInit _, ?_, by simp⟩
    · simp [executeExplorationSteps, applyResponses]
    · intro w hw
      simp [mkWorkList, plansWork] at hw
  · obtain ⟨st, hloop, hinv, hclosed, hpr⟩ :=
      execLoop_spec think task (mkWorkList plans) mkWorkList_qnames_dotted
        ((mkWorkList plans).length + 1) 0 ⟨[], [], [], 0, 0⟩ (execInvInit _)
        (by omega) (by intro h; omega) (by simp)
    refine ⟨st, ?_, hinv, hclosed, hpr⟩
    simp only [executeExplorationSteps, hemp, if_false, Bool.false_eq_true, hloop]

/-! ## Helper lemmas: rebuilding the plans from the trace -/

theorem applyStepResponses_strip (trace : List ThinkEvent) (i : Nat) :
    ∀ (j : Nat) (steps : List PlanStep),
      (applyStepResponses trace i j steps).map stripStep = steps.map stripStep := by
  intro j steps
  induction steps generalizing j with
  | nil => simp [applyStepResponses]
  | cons s rest ih =>
    simp only [applyStepResponses, List.map_cons]
    rw [ih (j + 1)]
    cases hf : trace.find? (fun e => e.pidx == i && e.sidx == j) with
    | none => rfl
    | some e => simp [stripStep]

theorem applyResponses_strip (trace : List ThinkEvent) :
    ∀ (i : Nat) (plans : List ExplorationPlan),
      (applyResponses trace i plans).map stripPlan = plans.map stripPlan := by
  intro i plans
  induction plans generalizing i with
  | nil => simp [applyResponses]
  | cons p rest ih =>
    simp only [applyResponses, List.map_cons]
    rw [ih (i + 1)]
    simp [stripPlan, applyStepResponses_strip]

theorem applyStepResponses_getElem (trace : List ThinkEvent) (i : Nat) :
    ∀ (j0 jp : Nat) (steps : List PlanStep),
      (applyStepResponses trace i j0 steps)[jp]? = (steps[jp]?).map (fun s =>
        match trace.find? (fun e => e.pidx == i && e.sidx == (j0 + jp)) with
        | some e => { s with response := some e.output }
        | none => s) := by
  intro j0 jp steps
  induction steps generalizing j0 jp with
  | nil => simp [applyStepResponses]
  | cons s rest ih =>
    cases jp with
    | zero => simp [applyStepResponses]
    | succ jp =>
      simp only [applyStepResponses, List.getElem?_cons_succ]
      rw [ih (j0 + 1) jp]
      simp only [Nat.add_succ, Nat.succ_add]

theorem applyResponses_getElem (trace : List ThinkEvent) :
    ∀ (i0 ip : Nat) (plans : List ExplorationPlan),
      (applyResponses trace i0 plans)[ip]? = (plans[ip]?).map (fun p =>
        { p with steps := applyStepResponses trace (i0 + ip) 0 p.steps }) := by
  intro i0 ip plans
  induction plans generalizing i0 ip with
  | nil => simp [applyResponses]
  | cons p rest ih =>
    cases ip with
    | zero => simp [applyResponses]
    | succ ip =>
      simp only [applyResponses, List.getElem?_cons_succ]
      rw [ih (i0 + 1) ip]
      simp only [Nat.add_succ, Nat.succ_add]

/-! ## Helper lemmas: closure completeness and trace counting -/

theorem satIter_subset_executed {work : List WorkItem} {st : ExecSt}
    (hclosed : ExecClosed work st) :
    ∀ k, ∀ q ∈ satIter work k, q ∈ st.executed := by
  intro k
  induction k with
  | zero => simp [satIter]
  | succ k ih =>
    intro q hq
    simp only [satIter, List.mem_map, List.mem_filter] at hq
    obtain ⟨w, ⟨hw, hall⟩, rfl⟩ := hq
    apply hclosed w hw
    intro d hd
    exact ih d (List.elem_iff.mp (List.all_eq_true.mp hall d hd))

theorem completedBefore_subset_executed {work : List WorkItem} {st : ExecSt}
    (hinv : ExecInv work st) {e : ThinkEvent} (he : e ∈ st.trace) :
    ∀ d ∈ e.completedBefore, d ∈ st.executed := by
  obtain ⟨k, hk, rfl⟩ := List.mem_iff_get.mp he
  intro d hd
  rw [hinv.cb _ _] at hd
  rw [← hinv.traceQ]
  have hsub : (st.trace.take ↑k).map ThinkEvent.qname ⊆ st.trace.map ThinkEvent.qname := by
    intro x hx
    obtain ⟨e2, he2, rfl⟩ := List.mem_map.mp hx
    exact List.mem_map_of_mem _ (List.take_subset _ _ he2)
  exact hsub hd

theorem filter_qname_nil {trace : List ThinkEvent} {q : String}
    (h : q ∉ trace.map ThinkEvent.qname) :
    trace.filter (fun e => e.qname == q) = [] := by
  rw [List.filter_eq_nil]
  intro e he hbeq
  apply h
  have : e.qname = q := by simpa using hbeq
  rw [← this]
  exact List.mem_map_of_mem _ he

theorem filter_qname_length_le_one {trace : List ThinkEvent} {q : String}
    (h : (trace.map ThinkEvent.qname).Nodup) :
    (trace.filter (fun e => e.qname == q)).length ≤ 1 := by
  induction trace with
  | nil => simp
  | cons e rest ih =>
    simp only [List.map_cons, List.nodup_cons] at h
    obtain ⟨hnot, hrest⟩ := h
    by_cases hq : e.qname = q
    · subst hq
      rw [List.filter_cons_of_pos (by simp), filter_qname_nil hnot]
      simp
    · rw [List.filter_cons_of_neg (by simpa using hq)]
      exact ih hrest

theorem filter_qname_length_pos {trace : List ThinkEvent} {q : String}
    (h : q ∈ trace.map ThinkEvent.qname) :
    1 ≤ (trace.filter (fun e => e.qname == q)).length := by
  obtain ⟨e, he, rfl⟩ := List.mem_map.mp h
  have : e ∈ trace.filter (fun x => x.qname == e.qname) :=
    List.mem_filter.mpr ⟨he, by simp⟩
  have hne := List.ne_nil_of_mem this
  have := List.length_pos.mpr hne
  omega

/-! ## C1 — review-failure fallback -/

/-- C1: the claim states that when the review invocation raises, the controller
synthesizes a fallback `ReviewResult` (action `HALT_NO_FEASIBLE_PATH`, assessment
`"ERROR_IN_REVIEW_PROCESSING"`, empty selected context) and halts without ever
propagating the exception.  Evaluating the code at a failing input shows the
opposite: the fallback constructor in the `except` block (main.py lines 311-320)
passes the keyword names `iteration_assessment`, `synthesis_ready`,
`selected_context`, which `app/schemas.py` `ReviewerOut` does not declare, so
pydantic raises a `ValidationError` (required fields
`assessment_of_current_iteration`, `is_sufficient_for_synthesis` missing) that
propagates out of `run` during iteration 1. -/
theorem claim_C1_review_failure_fallback_raises :
    orchestratorRun stagesReviewRaises 7 2 "task"
      = ⟨.error (.validationError "ReviewerOut"
          ["assessment_of_current_iteration", "is_sufficient_for_synthesis"]), [], 1⟩ := by
  rfl

/-! ## C3 — iteration cap -/

/-- C3: the claim states that with a review stage that never halts (always
`BROADEN`) and never raises, the loop stops after exactly `max_iterations` (7)
iterations.  Evaluating the code: with such a reviewer the run raises
`AttributeError` (`ReviewerOut` has no attribute `iteration_assessment`,
main.py line 703) during iteration 1, so the iteration cap is never exercised. -/
theorem claim_C3_run_crashes_before_iteration_cap :
    orchestratorRun stagesBroaden 7 2 "task"
      = ⟨.error (.attributeError "ReviewerOut" "iteration_assessment"), [], 1⟩ := by
  rfl

/-! ## C7 — stagnation counter -/

/-- C7: the claim states the stagnation counter is reset to 0 after a review with
non-empty selected context and incremented otherwise, yielding the sequence
`1, 2, 0` for the no-gem, no-gem, gem scenario.  Evaluating the code on exactly
that scenario: the counter update (main.py lines 706-711) is never reached, because
line 703 reads `review_obj.iteration_assessment`, which `app/schemas.py`
`ReviewerOut` does not declare; the run raises during iteration 1 and the recorded
counter sequence is empty. -/
theorem claim_C7_stagnation_counter_never_updated :
    orchestratorRun stagesStagnation 7 2 "task"
      = ⟨.error (.attributeError "ReviewerOut" "iteration_assessment"), [], 1⟩ := by
  rfl

/-! ## C8 — guidance translator -/

/-- C8: the claim describes the directive returned by the guidance translator for
target-referencing actions (newest-first history lookup, appended previous output,
warning line when the target ids are absent).  Evaluating the code at a `DEEPEN`
guidance with both target ids present and a resolvable history: the translator
raises `AttributeError` instead of returning any directive, because line 560 of
main.py unconditionally reads `previous_review_guidance.refinement_details`, a name
`app/schemas.py` `NextIterationGuidance` does not declare (it declares
`suggested_modifications_or_focus`). -/
theorem claim_C8_guidance_translator_raises :
    preparePlannerGuidancePrompt (some deepenGuidance) historyA1
      = .error (.attributeError "NextIterationGuidance" "refinement_details") := by
  rfl

/-! ## C9 — top-level run never raises -/

/-- C9 counterexample: the claim states that for every behaviour of the external
stages the top-level run returns a string and never lets an exception escape.  At
this concrete input (all stages succeed, the reviewer answers `DEEPEN`), the run
terminates with an escaped `AttributeError` rather than a returned string. -/
theorem claim_C9_counterexample :
    (orchestratorRun stagesDeepen 7 2 "task").result
      = .error (.attributeError "ReviewerOut" "iteration_assessment") := by
  rfl

/-- C9 amended: the universal no-escape guarantee does not hold, but the specific
planner-failure clause does: whenever the iteration-1 planner call yields no plans
(exception or empty result, both folded to `[]` by `generate_plan`), `run` returns
the marked error string rather than raising (main.py lines 679-682). -/
theorem claim_C9_amended_planner_failure_returns_error_string
    (stages : Stages) (maxIterations stagnationThreshold : Nat) (parent_task : String)
    (h : generatePlan stages.plannerCall parent_task none = []) :
    (orchestratorRun stages maxIterations stagnationThreshold parent_task).result
      = .ok errNoInitialPlan := by
  simp only [orchestratorRun, runLoop, preparePlannerGuidancePrompt, h]
  rfl

/-- C9 witness: at stages whose planner raises, the hypothesis holds and the run
returns the iteration-1 planner error string. -/
theorem claim_C9_amended_witness :
    generatePlan stagesPlannerRaises.plannerCall "task" none = [] ∧
      (orchestratorRun stagesPlannerRaises 7 2 "task").result = .ok errNoInitialPlan :=
  ⟨rfl, claim_C9_amended_planner_failure_returns_error_string stagesPlannerRaises 7 2 "task" rfl⟩

/-! ## C4 — synthesis-ready validation -/

/-- C4 counterexample: the claim states that a `ReviewResult` violating the
equivalence between the sufficiency flag and `action == "HALT_SUFFICIENT"` is
rejected at validation.  Both violating combinations are accepted: pydantic
construction of `ReviewerOut` succeeds with the flag `True` and a `BROADEN`
guidance, and with the flag `False` and a `HALT_SUFFICIENT` guidance. -/
theorem claim_C4_counterexample :
    (ReviewerOut.pydanticNew
      [("assessment_of_current_iteration", .vstr "done"),
       ("is_sufficient_for_synthesis", .vbool true),
       ("next_iteration_guidance", .vguid violatingGuidance)]
      = .ok { assessment_of_current_iteration := "done", is_sufficient_for_synthesis := true,
              context_to_use := none, next_iteration_guidance := violatingGuidance }
     ∧ violatingGuidance.action ≠ "HALT_SUFFICIENT")
    ∧ ReviewerOut.pydanticNew
      [("assessment_of_current_iteration", .vstr "done"),
       ("is_sufficient_for_synthesis", .vbool false),
       ("next_iteration_guidance", .vguid { action := "HALT_SUFFICIENT", reasoning := "stop" })]
      = .ok { assessment_of_current_iteration := "done", is_sufficient_for_synthesis := false,
              context_to_use := none,
              next_iteration_guidance := { action := "HALT_SUFFICIENT", reasoning := "stop" } } := by
  exact ⟨⟨rfl, by decide⟩, rfl⟩

/-- C4 amended: `app/schemas.py` declares no validator on `ReviewerOut` (whose flag
field is named `is_sufficient_for_synthesis`, not `synthesis_ready`): validation
accepts every combination of the flag and the guidance action — for every `Literal`
action, every reasoning, assessment and flag value, guidance construction and
`ReviewerOut` construction both succeed, yielding a value with exactly that flag and
action. -/
theorem claim_C4_amended_no_validation_link
    (assessment action reasoning : String) (b : Bool) (ha : action ∈ actionLiterals) :
    ∃ g r, NextIterationGuidance.new action reasoning = .ok g ∧
      ReviewerOut.pydanticNew
        [("assessment_of_current_iteration", .vstr assessment),
         ("is_sufficient_for_synthesis", .vbool b),
         ("next_iteration_guidance", .vguid g)] = .ok r ∧
      r.is_sufficient_for_synthesis = b ∧ r.next_iteration_guidance.action = action := by
  refine ⟨{ action := action, reasoning := reasoning }, _, ?_, rfl, rfl, rfl⟩
  have hc : actionLiterals.contains action = true := List.elem_iff.mpr ha
  simp [NextIterationGuidance.new, hc]
  exact ha

/-- C4 witness: the amended theorem at the concrete action `"BROADEN"` and flag
`True`. -/
theorem claim_C4_amended_witness :
    "BROADEN" ∈ actionLiterals ∧
      ∃ g r, NextIterationGuidance.new "BROADEN" "why" = .ok g ∧
        ReviewerOut.pydanticNew
          [("assessment_of_current_iteration", .vstr "done"),
           ("is_sufficient_for_synthesis", .vbool true),
           ("next_iteration_guidance", .vguid g)] = .ok r ∧
        r.is_sufficient_for_synthesis = true ∧ r.next_iteration_guidance.action = "BROADEN" :=
  ⟨by decide, claim_C4_amended_no_validation_link "done" "BROADEN" "why" true (by decide)⟩

/-! ## C2 — dependency ordering -/

/-- C2: for every plan list and thinker behaviour the executor succeeds, and every
recorded thinker invocation belongs to a step of the input plans, fires only when
each declared dependency is a key of the completed-outputs map at that moment, and
those dependencies are exactly the qualified names of strictly earlier invocations
(the happens-before ordering via the completed-outputs map). -/
theorem claim_C2_dependency_ordering (think : String → Option String → String → String)
    (plans : List ExplorationPlan) (task : String) :
    ∃ plansOut trace passes,
      executeExplorationSteps think plans task = .ok (plansOut, trace, passes) ∧
      ∀ k (hk : k < trace.length),
        (∃ p s, plans[(trace.get ⟨k, hk⟩).pidx]? = some p ∧
          p.steps[(trace.get ⟨k, hk⟩).sidx]? = some s ∧
          (trace.get ⟨k, hk⟩).deps = s.dependencies.getD []) ∧
        (∀ d ∈ (trace.get ⟨k, hk⟩).deps, d ∈ (trace.get ⟨k, hk⟩).completedBefore) ∧
        (∀ d ∈ (trace.get ⟨k, hk⟩).deps, d ∈ (trace.take k).map ThinkEvent.qname) := by
  obtain ⟨st, hexec, hinv, _, _⟩ := executeExplorationSteps_spec think plans task
  refine ⟨_, _, _, hexec, ?_⟩
  intro k hk
  have hmem : st.trace.get ⟨k, hk⟩ ∈ st.trace := List.get_mem _ _ _
  refine ⟨?_, hinv.eventDeps _ hmem, ?_⟩
  · obtain ⟨w, hw, hpidx, hsidx, hq, hd⟩ := hinv.events _ hmem
    obtain ⟨p, s, hp, hs, hq2, hd2, _⟩ := mkWorkList_mem hw
    refine ⟨p, s, ?_, ?_, ?_⟩
    · rw [← hpidx]
      exact hp
    · rw [← hsidx]
      exact hs
    · rw [← hd, hd2]
  · intro d hd
    have := hinv.eventDeps _ hmem d hd
    rw [hinv.cb k hk] at this
    exact this

/-! ## C10 — executor frame property -/

/-- C10: the executor only assigns `response` fields: for every input, it returns
the same plans in the same order, and stripping every `response` from the output
yields exactly the input with its responses stripped — so `plan_id`, `strategy`,
`overview`, step ordering, `step_id`, `instructions` and `dependencies` are all
preserved and no plan or step is added or removed. -/
theorem claim_C10_executor_frame (think : String → Option String → String → String)
    (plans : List ExplorationPlan) (task : String) :
    ∃ plansOut trace passes,
      executeExplorationSteps think plans task = .ok (plansOut, trace, passes) ∧
      plansOut.map stripPlan = plans.map stripPlan := by
  obtain ⟨st, hexec, _, _, _⟩ := executeExplorationSteps_spec think plans task
  exact ⟨_, _, _, hexec, applyResponses_strip st.trace 0 plans⟩

/-! ## C5 — single execution -/

/-- C5: with unique plan ids and per-plan unique step ids, one executor run invokes
the thinker at most once per qualified step id, and exactly once for every step
whose dependencies are satisfiable. -/
theorem claim_C5_single_execution (think : String → Option String → String → String)
    (plans : List ExplorationPlan) (task : String)
    (hplanIds : (plans.map ExplorationPlan.plan_id).Nodup)
    (hstepIds : ∀ p ∈ plans, (p.steps.map PlanStep.step_id).Nodup) :
    ∃ plansOut trace passes,
      executeExplorationSteps think plans task = .ok (plansOut, trace, passes) ∧
      ∀ p ∈ plans, ∀ s ∈ p.steps,
        (trace.filter (fun e => e.qname == planStepQname p s)).length ≤ 1 ∧
        (DepsSatisfiable (mkWorkList plans) (s.dependencies.getD []) →
          (trace.filter (fun e => e.qname == planStepQname p s)).length = 1) := by
  obtain ⟨st, hexec, hinv, hclosed, _⟩ := executeExplorationSteps_spec think plans task
  refine ⟨_, _, _, hexec, ?_⟩
  intro p hp s hs
  have hnodupTrace : (st.trace.map ThinkEvent.qname).Nodup := by
    rw [hinv.traceQ]
    exact hinv.nodup
  have hle : (st.trace.filter (fun e => e.qname == planStepQname p s)).length ≤ 1 :=
    filter_qname_length_le_one hnodupTrace
  refine ⟨hle, ?_⟩
  rintro ⟨k, hk⟩
  obtain ⟨ip, hip⟩ := List.mem_iff_getElem?.mp hp
  obtain ⟨jp, hjp⟩ := List.mem_iff_getElem?.mp hs
  have hw := mkWorkList_mem_of_get hip hjp
  have hq := satIter_succ_mem hw hk
  have hexecuted := satIter_subset_executed hclosed (k + 1) _ hq
  have hmemq : planStepQname p s ∈ st.trace.map ThinkEvent.qname := by
    rw [hinv.traceQ]
    exact hexecuted
  have h1 := filter_qname_length_pos hmemq
  omega

/-- C5 witness: the dependency chain `plansChain` has unique plan and step ids, and
the executor invokes the thinker exactly once for each of its (satisfiable) steps. -/
theorem claim_C5_witness :
    ((plansChain.map ExplorationPlan.plan_id).Nodup ∧
      ∀ p ∈ plansChain, (p.steps.map PlanStep.step_id).Nodup) ∧
    (∃ plansOut trace passes,
      executeExplorationSteps thinkR plansChain "task" = .ok (plansOut, trace, passes) ∧
      ∀ p ∈ plansChain, ∀ s ∈ p.steps,
        (trace.filter (fun e => e.qname == planStepQname p s)).length ≤ 1 ∧
        (DepsSatisfiable (mkWorkList plansChain) (s.dependencies.getD []) →
          (trace.filter (fun e => e.qname == planStepQname p s)).length = 1)) :=
  ⟨⟨by decide, by decide⟩,
   claim_C5_single_execution thinkR plansChain "task" (by decide) (by decide)⟩

/-! ## C6 — unresolvable dependencies are non-fatal -/

/-- C6 counterexample: the claim quantifies over every input containing a
never-satisfiable step, and asserts that all satisfiable steps end with a populated
`response`.  At this explicit input (`plansDupQname`: qualified id `A.1` duplicated,
plus a step depending on the nonexistent `X.Y`), the run succeeds but the second
`A.1` step — whose dependency list is empty, hence trivially satisfiable within zero
closure rounds (third conjunct) — is skipped by the qualified-name guard and its
`response` stays unset in the returned plans (`plansDupQnameAfter`, first conjunct),
while the input does contain a never-satisfiable step (second conjunct). -/
theorem claim_C6_counterexample :
    executeExplorationSteps thinkR plansDupQname "task"
      = .ok (plansDupQnameAfter, [⟨0, 0, "A.1", [], [], "R"⟩], 2) ∧
    DepsNeverSatisfiable (mkWorkList plansDupQname) ["X.Y"] ∧
    (∀ d ∈ ([] : List String), d ∈ satIter (mkWorkList plansDupQname) 0) := by
  refine ⟨by rfl, ?_, by simp⟩
  exact depsNeverSatisfiable_of_missing (show ("X.Y" : String) ∈ ["X.Y"] by simp) (by decide)

/-- C6 amended: for inputs whose qualified step ids are pairwise distinct (as the
data model requires) and which contain a step whose dependencies can never all be
satisfied, the executor does not raise, sweeps the work list at most step-count + 1
times, leaves the `response` of every never-satisfiable step unchanged (hence unset
when it was unset), and populates the `response` of every satisfiable step. -/
theorem claim_C6_amended_unresolvable_nonfatal
    (think : String → Option String → String → String)
    (plans : List ExplorationPlan) (task : String)
    (huniq : (workQnames (mkWorkList plans)).Nodup)
    (hbad : ∃ p ∈ plans, ∃ s ∈ p.steps,
      DepsNeverSatisfiable (mkWorkList plans) (s.dependencies.getD [])) :
    ∃ plansOut trace passes,
      executeExplorationSteps think plans task = .ok (plansOut, trace, passes) ∧
      passes ≤ (mkWorkList plans).length + 1 ∧
      ∀ (ip jp : Nat) (p : ExplorationPlan) (s : PlanStep),
        plans[ip]? = some p → p.steps[jp]? = some s →
        ∃ pOut sOut, plansOut[ip]? = some pOut ∧ pOut.steps[jp]? = some sOut ∧
          (DepsNeverSatisfiable (mkWorkList plans) (s.dependencies.getD []) →
            sOut.response = s.response) ∧
          (DepsSatisfiable (mkWorkList plans) (s.dependencies.getD []) →
            sOut.response.isSome) := by
  obtain ⟨st, hexec, hinv, hclosed, hpasses⟩ := executeExplorationSteps_spec think plans task
  refine ⟨_, _, _, hexec, hpasses, ?_⟩
  intro ip jp p s hip hjp
  have hpOut : (applyResponses st.trace 0 plans)[ip]? =
      some { p with steps := applyStepResponses st.trace ip 0 p.steps } := by
    rw [applyResponses_getElem, hip]
    simp
  have hsOut : (applyStepResponses st.trace ip 0 p.steps)[jp]? = some (
      match st.trace.find? (fun e => e.pidx == ip && e.sidx == jp) with
      | some e => { s with response := some e.output }
      | none => s) := by
    rw [applyStepResponses_getElem, hjp]
    simp
  refine ⟨_, _, hpOut, hsOut, ?_, ?_⟩
  · intro hnever
    cases hf : st.trace.find? (fun e => e.pidx == ip && e.sidx == jp) with
    | none => simp
    | some e =>
      exfalso
      have hemem := List.mem_of_find?_eq_some hf
      have hpe : e.pidx = ip ∧ e.sidx = jp := by
        have := List.find?_some hf
        simpa using this
      obtain ⟨w, hw, hwp, hws, hwq, hwd⟩ := hinv.events e hemem
      obtain ⟨p2, s2, hp2, hs2, hq2, hd2, _⟩ := mkWorkList_mem hw
      rw [hwp, hpe.1] at hp2
      rw [hws, hpe.2] at hs2
      have hpp : p2 = p := Option.some_injective _ (hp2.symm.trans hip)
      rw [hpp] at hs2
      have hss : s2 = s := Option.some_injective _ (hs2.symm.trans hjp)
      rw [hss] at hd2
      have hde : e.deps = s.dependencies.getD [] := hwd.symm.trans hd2
      apply hnever st.executed.length
      intro d hd
      apply hinv.sound
      apply completedBefore_subset_executed hinv hemem
      apply hinv.eventDeps e hemem
      rw [hde]
      exact hd
  · rintro ⟨k, hk⟩
    have hw := mkWorkList_mem_of_get hip hjp
    have hq := satIter_succ_mem hw hk
    have hexecuted := satIter_subset_executed hclosed (k + 1) _ hq
    have hmemq : planStepQname p s ∈ st.trace.map ThinkEvent.qname := by
      rw [hinv.traceQ]
      exact hexecuted
    obtain ⟨e, hemem, heq⟩ := List.mem_map.mp hmemq
    obtain ⟨w2, hw2, hw2p, hw2s, hw2q, _⟩ := hinv.events e hemem
    have huniq2 : (((mkWorkList plans)).map WorkItem.qname).Nodup := huniq
    have hqq : w2.qname =
        (⟨ip, jp, planStepQname p s, s.dependencies.getD [], s.instructions⟩ : WorkItem).qname := by
      rw [hw2q, heq]
    have hsame : w2 = ⟨ip, jp, planStepQname p s, s.dependencies.getD [], s.instructions⟩ :=
      List.inj_on_of_nodup_map huniq2 hw2 hw hqq
    have hfind : (st.trace.find? (fun x => x.pidx == ip && x.sidx == jp)).isSome := by
      rw [List.find?_isSome]
      refine ⟨e, hemem, ?_⟩
      have hp3 : e.pidx = ip := by rw [← hw2p, hsame]
      have hs3 : e.sidx = jp := by rw [← hw2s, hsame]
      simp [hp3, hs3]
    cases hf : st.trace.find? (fun x => x.pidx == ip && x.sidx == jp) with
    | none =>
      rw [hf] at hfind
      simp at hfind
    | some e0 => simp

/-- C6 witness: `plansWithBadDep` has pairwise-distinct qualified ids and contains a
step depending on the nonexistent `X.Y`; the amended theorem applies to it. -/
theorem claim_C6_amended_witness :
    ((workQnames (mkWorkList plansWithBadDep)).Nodup ∧
      ∃ p ∈ plansWithBadDep, ∃ s ∈ p.steps,
        DepsNeverSatisfiable (mkWorkList plansWithBadDep) (s.dependencies.getD [])) ∧
    (∃ plansOut trace passes,
      executeExplorationSteps thinkR plansWithBadDep "task" = .ok (plansOut, trace, passes) ∧
      passes ≤ (mkWorkList plansWithBadDep).length + 1 ∧
      ∀ (ip jp : Nat) (p : ExplorationPlan) (s : PlanStep),
        plansWithBadDep[ip]? = some p → p.steps[jp]? = some s →
        ∃ pOut sOut, plansOut[ip]? = some pOut ∧ pOut.steps[jp]? = some sOut ∧
          (DepsNeverSatisfiable (mkWorkList plansWithBadDep) (s.dependencies.getD []) →
            sOut.response = s.response) ∧
          (DepsSatisfiable (mkWorkList plansWithBadDep) (s.dependencies.getD []) →
            sOut.response.isSome)) := by
  have hbad : ∃ p ∈ plansWithBadDep, ∃ s ∈ p.steps,
      DepsNeverSatisfiable (mkWorkList plansWithBadDep) (s.dependencies.getD []) := by
    refine ⟨{ plan_id := "A", strategy := "mixed", steps :=
        [{ step_id := "1", instructions := "start" },
         { step_id := "2", instructions := "use step 1", dependencies := some ["A.1"] },
         { step_id := "3", instructions := "blocked", dependencies := some ["X.Y"] }] },
      by decide,
      { step_id := "3", instructions := "blocked", dependencies := some ["X.Y"] },
      by decide, ?_⟩
    exact depsNeverSatisfiable_of_missing (show ("X.Y" : String) ∈ ["X.Y"] by simp) (by decide)
  exact ⟨⟨by decide, hbad⟩,
    claim_C6_amended_unresolvable_nonfatal thinkR plansWithBadDep "task" (by decide) hbad⟩

end DeepReasoning
